import Mathlib

/-!
Verification of the slicing-and-size-budget export engine of the one-page
PDF splitter (src/app.py).  The Python source is shallowly embedded below:
floats are modelled as exact rationals, Python `int(...)` truncation and
`round(...)` (banker's rounding) are modelled explicitly, and the external
rasterizer is treated as a black box whose output dimensions are parameters.
-/

namespace PDFSplit

/-- Python `int(q)` for a float value `q`: truncation toward zero. -/
def pyInt (q : ℚ) : ℤ :=
  if 0 ≤ q then ⌊q⌋ else -⌊-q⌋

/-- Python `round(q)` for a float value `q`: round half to even. -/
def pyRound (q : ℚ) : ℤ :=
  if q - ⌊q⌋ < 1/2 then ⌊q⌋
  else if 1/2 < q - ⌊q⌋ then ⌊q⌋ + 1
  else if ⌊q⌋ % 2 = 0 then ⌊q⌋ else ⌊q⌋ + 1

/-- Function `estimate_mb` from src/app.py: heuristic output size in megabytes. -/
def estimate_mb (width_px height_px num_pages : ℕ) (comp : ℚ) : ℚ :=
  let total_pixels : ℚ := (width_px : ℚ) * height_px
  let raw_bytes := total_pixels * 3
  let est_bytes := raw_bytes * comp
  let overhead : ℚ := (num_pages : ℚ) * 60000
  (est_bytes + overhead) / 1000000

/-! ## Slice planning (src/app.py lines 310-318) -/

/-- The loop building `ranges` in src/app.py: pairs each cut with the previous
boundary, starting from 0 and closing with 1.0. -/
def planAux : ℚ → List ℚ → List (ℚ × ℚ)
  | start, [] => [(start, 1)]
  | start, c :: cs => (start, c) :: planAux c cs

/-- The `ranges` list as built from the sorted cut list (start = 0). -/
def plan_slices (cuts : List ℚ) : List (ℚ × ℚ) :=
  planAux 0 cuts

/-! ## Slice cropping inside `export_with_dpi` (src/app.py lines 346-353) -/

/-- Pixel row of a fractional position: `int(y * export_H)` in the source. -/
def fracRow (y : ℚ) (exportH : ℕ) : ℕ :=
  (pyInt (y * exportH)).toNat

/-- The slice crop loop of `export_with_dpi`: each kept range becomes the pixel
row interval `[int(y0*H), int(y1*H))`; ranges with fractional height below
2 pixels are skipped. -/
def cropSlices (exportH : ℕ) : List (ℚ × ℚ) → List (ℕ × ℕ)
  | [] => []
  | (y0, y1) :: rs =>
    if (y1 - y0) * exportH < 2 then cropSlices exportH rs
    else (fracRow y0 exportH, fracRow y1 exportH) :: cropSlices exportH rs

/-- Modelled from the spec: identical to the source's crop loop except that the
spec prescribes `row = round(fraction * raster_height)` where the source uses
`int(...)` truncation; used only to compare the two conversions. -/
def cropSlicesSpecRound (exportH : ℕ) : List (ℚ × ℚ) → List (ℕ × ℕ)
  | [] => []
  | (y0, y1) :: rs =>
    if (y1 - y0) * exportH < 2 then cropSlicesSpecRound exportH rs
    else ((pyRound (y0 * exportH)).toNat, (pyRound (y1 * exportH)).toNat) ::
      cropSlicesSpecRound exportH rs

/-! ## Coordinate mapper and debounce filter (src/app.py lines 288-307) -/

/-- The debounce condition from the click handler: a candidate cut is kept when
its display-pixel distance from the last kept cut exceeds the gap (the source
uses the literal gap 12). -/
def farEnough (displayHeight gap : ℕ) (last c : ℚ) : Prop :=
  |c * (displayHeight : ℚ) - last * displayHeight| > gap

instance (displayHeight gap : ℕ) (last c : ℚ) :
    Decidable (farEnough displayHeight gap last c) := by
  unfold farEnough
  infer_instance

/-- The body of the greedy filter, carrying the last kept cut. -/
def debounceAux (displayHeight gap : ℕ) : ℚ → List ℚ → List ℚ
  | _, [] => []
  | last, c :: cs =>
    if farEnough displayHeight gap last c then c :: debounceAux displayHeight gap c cs
    else debounceAux displayHeight gap last cs

/-- The greedy left-to-right pass of the click handler: the first cut is always
kept, later cuts only when far enough from the last kept one. -/
def debounce (displayHeight gap : ℕ) : List ℚ → List ℚ
  | [] => []
  | c :: cs => c :: debounceAux displayHeight gap c cs

/-- Function `merge_cut`: append the new fraction, sort, and run the debounce filter
(src/app.py lines 299-305). -/
def merge_cut (existing : List ℚ) (newFrac : ℚ) (displayHeight gap : ℕ) : List ℚ :=
  debounce displayHeight gap (List.insertionSort (· ≤ ·) (existing ++ [newFrac]))

/-- The click handler (src/app.py lines 293-307): map the display-space click
back to full-render pixels with Python rounding, convert to a fraction of the
true height, and merge it with debouncing (gap 12); clicks mapping outside the
open interval (0, trueH) leave the cut set unchanged. -/
def handle_click (cuts : List ℚ) (clickY : ℕ) (scale : ℚ)
    (trueH displayHeight : ℕ) : List ℚ :=
  if 0 < pyRound ((clickY : ℚ) / scale) ∧ pyRound ((clickY : ℚ) / scale) < trueH then
    merge_cut cuts ((pyRound ((clickY : ℚ) / scale) : ℚ) / trueH) displayHeight 12
  else cuts

/-! ## Export engine raster dimensions (src/app.py lines 324-344) -/

/-- The hard pixel ceiling `max_export_pixels` of `export_with_dpi`. -/
def maxExportPixels : ℕ := 250000000

/-- The quantity `int(page_pt * dpi_value / 72.0)`: requested pixel dimension of one side. -/
def pxOfPt (pagePt : ℚ) (dpi : ℕ) : ℕ :=
  (pyInt (pagePt * dpi / 72)).toNat

/-- The effective DPI computed by `export_with_dpi`: when the requested raster
would exceed the pixel ceiling, the DPI is scaled by
`s = (max_export_pixels / total) ** 0.5` and floored at 72.  In exact
arithmetic `int(dpi * s) = ⌊√(dpi² · max / total)⌋ = Nat.sqrt` of the natural
quotient `dpi² * max / total`, since `⌊√x⌋ = Nat.sqrt ⌊x⌋` for real `x ≥ 0`. -/
def dpi_value (pageW pageH : ℚ) (dpi : ℕ) : ℕ :=
  if maxExportPixels < pxOfPt pageW dpi * pxOfPt pageH dpi then
    max 72 (Nat.sqrt (dpi ^ 2 * maxExportPixels / (pxOfPt pageW dpi * pxOfPt pageH dpi)))
  else dpi

/-- The quantity `max(1, int(side * (dpi_value / base_dpi)))`: one side of the proportional
resize of the cached base render. -/
def resizeDim (side dNew dBase : ℕ) : ℕ :=
  max 1 (side * dNew / dBase)

/-- The raster actually used by `export_with_dpi`: the cached base render when
the effective DPI equals the base DPI, otherwise its proportional resize.
`baseW`/`baseH` are the dimensions the external renderer produced at
`baseDpi`. -/
def export_raster (pageW pageH : ℚ) (baseDpi baseW baseH reqDpi : ℕ) : ℕ × ℕ :=
  if dpi_value pageW pageH reqDpi = baseDpi then (baseW, baseH)
  else (resizeDim baseW (dpi_value pageW pageH reqDpi) baseDpi,
    resizeDim baseH (dpi_value pageW pageH reqDpi) baseDpi)

/-! ## Gradescope budget search (src/app.py lines 358-373) -/

/-- The DPI component of one degrade step: `max(10, int(dpi_try * 0.80))`. -/
def dpiStep (d : ℕ) : ℕ :=
  max 10 (4 * d / 5)

/-- One degrade step of the budget loop:
`dpi ← max(10, int(dpi*0.80))`, `quality ← max(30, quality - 10)`. -/
def budgetStep (p : ℕ × ℕ) : ℕ × ℕ :=
  (dpiStep p.1, max 30 (p.2 - 10))

/-- The budget loop, fuelled.  `size` abstracts `len(export_with_dpi(d, q))` in
bytes.  The result is the list of degraded (dpi, quality) pairs handed to the
successive Export Engine retries; the delivered output corresponds to the last
entry (or to the initial pair when the list is empty).  Mirrors the source:
loop while the output is over target, stop when the parameter pair stalls
(the stalled iteration re-runs the engine on the identical pair, reproducing
the same bytes, so it is not recorded as a distinct setting). -/
def budgetSearch (size : ℕ × ℕ → ℕ) (targetMb : ℚ) : ℕ → ℕ × ℕ → Option (List (ℕ × ℕ))
  | 0, _ => none
  | fuel + 1, p =>
    if (size p : ℚ) / 1000000 > targetMb then
      if budgetStep p = p then some []
      else (budgetSearch size targetMb fuel (budgetStep p)).map (budgetStep p :: ·)
    else some []

/-- Fuelled count of 0.80-scalings needed to take a DPI down to the floor 10;
the fuel `d` always suffices because each scaling loses at least one unit. -/
def dpiScalingsAux : ℕ → ℕ → ℕ
  | 0, _ => 0
  | fuel + 1, d => if d ≤ 10 then 0 else dpiScalingsAux fuel (dpiStep d) + 1

/-- Number of 0.80-scalings needed to take a DPI down to the floor of 10. -/
def dpiScalings (d : ℕ) : ℕ :=
  dpiScalingsAux d d

/-- Number of quality degradations needed to reach the floor of 30. -/
def qSteps (q : ℕ) : ℕ :=
  (q - 30 + 9) / 10

/-- The size oracle of the spec's budget-search scenario: exports stay at
60 MB until the settings are degraded to (112, 50), which produces 40 MB. -/
def scenarioSize (p : ℕ × ℕ) : ℕ :=
  if p = (112, 50) then 40000000 else 60000000

/-- Joint measure of the remaining degrade steps. -/
def budgetMeasure (p : ℕ × ℕ) : ℕ :=
  max (dpiScalings p.1) (qSteps p.2)

/-! ## Theorems -/

theorem pyInt_of_nonneg {q : ℚ} (h : 0 ≤ q) : pyInt q = ⌊q⌋ := by
  simp [pyInt, h]

/-- Rounding moves a value by at most one half. -/
theorem abs_pyRound_sub_le (q : ℚ) : |(pyRound q : ℚ) - q| ≤ 1/2 := by
  have h1 : (⌊q⌋ : ℚ) ≤ q := Int.floor_le q
  have h2 : q < ⌊q⌋ + 1 := Int.lt_floor_add_one q
  unfold pyRound
  split_ifs <;> rw [abs_le] <;> constructor <;> push_cast <;> linarith

/-- C9: `estimate_mb` computes `(w*h*3*comp + n*60000) / 1_000_000`, and on
`(1000, 1000, 1, 0.2)` it yields exactly `0.66`. -/
theorem estimate_mb_spec :
    (∀ (w h n : ℕ) (comp : ℚ),
      estimate_mb w h n comp = ((w : ℚ) * h * 3 * comp + n * 60000) / 1000000) ∧
    estimate_mb 1000 1000 1 (0.2 : ℚ) = (0.66 : ℚ) := by
  constructor
  · intro w h n comp
    simp [estimate_mb]
  · norm_num [estimate_mb]

theorem planAux_eq_zip (cuts : List ℚ) :
    ∀ s : ℚ, planAux s cuts = List.zip (s :: cuts) (cuts ++ [1]) := by
  induction cuts with
  | nil => intro s; simp [planAux]
  | cons c cs ih => intro s; simp [planAux, ih c, List.zip]

/-- C6: `plan_slices` pairs consecutive boundaries `0, c1, …, cn, 1`; it emits
`[(0,1)]` on the empty cut set, `n+1` ranges on `n` cuts (no range is ever
dropped by the planner), and the documented value on `[0.3, 0.7]`. -/
theorem plan_slices_spec :
    (∀ cuts : List ℚ, plan_slices cuts = List.zip (0 :: cuts) (cuts ++ [1])) ∧
    (∀ cuts : List ℚ, (plan_slices cuts).length = cuts.length + 1) ∧
    plan_slices [] = [(0, 1)] ∧
    plan_slices [(0.3 : ℚ), 0.7] = [(0, 0.3), (0.3, 0.7), (0.7, 1)] := by
  refine ⟨fun cuts => planAux_eq_zip cuts 0, fun cuts => ?_, by simp [plan_slices, planAux], ?_⟩
  · rw [plan_slices, planAux_eq_zip cuts 0, List.length_zip]
    simp
  · norm_num [plan_slices, planAux]

theorem fracRow_cast_of_nonneg {y : ℚ} (exportH : ℕ) (h : 0 ≤ y) :
    (fracRow y exportH : ℚ) = ⌊y * exportH⌋ := by
  have h0 : (0 : ℚ) ≤ y * exportH := mul_nonneg h (by positivity)
  rw [fracRow, pyInt_of_nonneg h0]
  exact_mod_cast Int.toNat_of_nonneg (Int.floor_nonneg.mpr h0)

theorem fracRow_le_mul {y : ℚ} (exportH : ℕ) (h : 0 ≤ y) :
    (fracRow y exportH : ℚ) ≤ y * exportH := by
  rw [fracRow_cast_of_nonneg exportH h]
  exact Int.floor_le _

theorem mul_lt_fracRow_add_one {y : ℚ} (exportH : ℕ) (h : 0 ≤ y) :
    y * exportH < fracRow y exportH + 1 := by
  rw [fracRow_cast_of_nonneg exportH h]
  exact Int.lt_floor_add_one _

theorem fracRow_mono {y y' : ℚ} (exportH : ℕ) (h0 : 0 ≤ y) (h : y ≤ y') :
    fracRow y exportH ≤ fracRow y' exportH := by
  have h0' : 0 ≤ y' := le_trans h0 h
  have : (0:ℚ) ≤ y * exportH := mul_nonneg h0 (by positivity)
  have : ⌊y * exportH⌋ ≤ ⌊y' * exportH⌋ :=
    Int.floor_mono (mul_le_mul_of_nonneg_right h (by positivity))
  rw [fracRow, fracRow, pyInt_of_nonneg (by positivity), pyInt_of_nonneg
    (mul_nonneg h0' (by positivity))]
  exact Int.toNat_le_toNat this
  -- NB: `0 ≤ y * exportH` discharged by positivity using `h0`

theorem fracRow_one (exportH : ℕ) : fracRow 1 exportH = exportH := by
  simp [fracRow, pyInt]

theorem fracRow_zero (exportH : ℕ) : fracRow 0 exportH = 0 := by
  simp [fracRow, pyInt]

theorem cropSlices_eq_filter_map (exportH : ℕ) (rs : List (ℚ × ℚ)) :
    cropSlices exportH rs =
      (rs.filter fun r => decide (¬ (r.2 - r.1) * (exportH : ℚ) < 2)).map
        (fun r => (fracRow r.1 exportH, fracRow r.2 exportH)) := by
  induction rs with
  | nil => rfl
  | cons r rs ih =>
    obtain ⟨y0, y1⟩ := r
    by_cases h : (y1 - y0) * (exportH : ℚ) < 2
    · simp [cropSlices, h, List.filter_cons, ih]
    · have h2 : 2 ≤ (y1 - y0) * (exportH : ℚ) := not_lt.1 h
      simp [cropSlices, h, h2, List.filter_cons, ih]

theorem mem_cropSlices_two_le (exportH : ℕ) (rs : List (ℚ × ℚ)) (s : ℕ × ℕ)
    (h0 : ∀ r ∈ rs, 0 ≤ r.1) (hs : s ∈ cropSlices exportH rs) :
    s.1 + 2 ≤ s.2 := by
  induction rs with
  | nil => simp [cropSlices] at hs
  | cons r rs ih =>
    obtain ⟨y0, y1⟩ := r
    have hy0 : (0:ℚ) ≤ y0 := h0 (y0, y1) (by simp)
    by_cases h : (y1 - y0) * (exportH : ℚ) < 2
    · rw [cropSlices, if_pos h] at hs
      exact ih (fun r hr => h0 r (List.mem_cons_of_mem _ hr)) hs
    · rw [cropSlices, if_neg h] at hs
      rcases List.mem_cons.mp hs with he | hm
      · subst he
        push_neg at h
        have hy1 : (0:ℚ) ≤ y1 := by
          nlinarith [h, mul_nonneg hy0 (show (0:ℚ) ≤ (exportH:ℚ) by positivity)]
        have l1 : (fracRow y0 exportH : ℚ) ≤ y0 * exportH := fracRow_le_mul exportH hy0
        have l2 : y1 * exportH < fracRow y1 exportH + 1 := mul_lt_fracRow_add_one exportH hy1
        have : (fracRow y0 exportH : ℚ) + 1 < fracRow y1 exportH := by nlinarith
        exact_mod_cast this
      · exact ih (fun r hr => h0 r (List.mem_cons_of_mem _ hr)) hm

/-- C7 counterexample: the source converts fractional bounds with `int(...)`
truncation, not `round(...)`: at fraction 7/20 on a 10-pixel raster the two
conversions disagree (3 versus 4), so the crop loop with the spec's rounding
differs from the source's crop loop. -/
theorem cropSlices_round_counterexample :
    cropSlices 10 [((0 : ℚ), 7/20), (7/20, 1)] ≠
      cropSlicesSpecRound 10 [((0 : ℚ), 7/20), (7/20, 1)] := by
  have h1 : cropSlices 10 [((0 : ℚ), 7/20), (7/20, 1)] = [(0, 3), (3, 10)] := by
    norm_num [cropSlices, fracRow, pyInt]
    decide
  have h2 : cropSlicesSpecRound 10 [((0 : ℚ), 7/20), (7/20, 1)] = [(0, 4), (4, 10)] := by
    norm_num [cropSlicesSpecRound, pyRound]
    decide
  rw [h1, h2]
  decide

/-- C7 (amended): fractional bounds are converted to pixel rows by truncation
(`row = int(fraction * raster_height)`, i.e. the floor for the nonnegative
fractions in use); any range whose fractional pixel height is below 2 is
omitted, so every kept slice is at least 2 pixels tall; a single cut at
fraction 0.0001 on a 100-pixel raster leaves exactly one full-page slice. -/
theorem cropSlices_truncation_spec :
    (∀ (exportH : ℕ) (rs : List (ℚ × ℚ)),
      cropSlices exportH rs =
        (rs.filter fun r => decide (¬ (r.2 - r.1) * (exportH : ℚ) < 2)).map
          (fun r => (fracRow r.1 exportH, fracRow r.2 exportH))) ∧
    (∀ (exportH : ℕ) (rs : List (ℚ × ℚ)) (s : ℕ × ℕ),
      (∀ r ∈ rs, 0 ≤ r.1) → s ∈ cropSlices exportH rs → s.1 + 2 ≤ s.2) ∧
    cropSlices 100 (plan_slices [(0.0001 : ℚ)]) = [(0, 100)] := by
  refine ⟨cropSlices_eq_filter_map, mem_cropSlices_two_le, ?_⟩
  norm_num [plan_slices, planAux, cropSlices, fracRow, pyInt]
  decide

/-- C7 witness: a kept full-page slice on a 100-pixel raster is at least
2 pixels tall. -/
theorem cropSlices_truncation_witness : (0 : ℕ) + 2 ≤ 100 :=
  cropSlices_truncation_spec.2.1 100 [((0 : ℚ), 1)] (0, 100) (by norm_num)
    (by norm_num [cropSlices, fracRow, pyInt]; decide)

/-- Non-overlap / coverage bookkeeping for the crop loop applied to a slice
plan: every kept pixel interval lies above `fracRow s`, intervals are pairwise
ordered, and the kept pixel heights sum to at most `exportH - fracRow s`. -/
theorem cropSlices_planAux_spec (exportH : ℕ) :
    ∀ (cuts : List ℚ) (s : ℚ), 0 ≤ s → s ≤ 1 →
      List.Chain' (· ≤ ·) (s :: cuts) → (∀ c ∈ cuts, c ≤ 1) →
      (∀ p ∈ cropSlices exportH (planAux s cuts),
        fracRow s exportH ≤ p.1 ∧ p.1 ≤ p.2 ∧ p.2 ≤ exportH) ∧
      List.Pairwise (fun a b : ℕ × ℕ => a.2 ≤ b.1) (cropSlices exportH (planAux s cuts)) ∧
      ((cropSlices exportH (planAux s cuts)).map (fun p => p.2 - p.1)).sum
        ≤ exportH - fracRow s exportH := by
  intro cuts
  induction cuts with
  | nil =>
    intro s hs0 hs1 _ _
    have hle : fracRow s exportH ≤ exportH := by
      have := fracRow_mono exportH hs0 hs1
      rwa [fracRow_one] at this
    by_cases h : (1 - s) * (exportH : ℚ) < 2
    · simp [planAux, cropSlices, h]
    · refine ⟨?_, ?_, ?_⟩ <;> simp [planAux, cropSlices, h, fracRow_one, hle]
  | cons c cs ih =>
    intro s hs0 hs1 hchain hle1
    have hsc : s ≤ c := (List.chain'_cons.mp hchain).1
    have hc0 : 0 ≤ c := le_trans hs0 hsc
    have hc1 : c ≤ 1 := hle1 c (by simp)
    have hmono : fracRow s exportH ≤ fracRow c exportH := fracRow_mono exportH hs0 hsc
    have hcH : fracRow c exportH ≤ exportH := by
      have := fracRow_mono exportH hc0 hc1
      rwa [fracRow_one] at this
    obtain ⟨ihAll, ihPW, ihSum⟩ :=
      ih c hc0 hc1 (List.chain'_cons.mp hchain).2 (fun x hx => hle1 x (by simp [hx]))
    by_cases h : (c - s) * (exportH : ℚ) < 2
    · rw [show planAux s (c :: cs) = (s, c) :: planAux c cs from rfl, cropSlices, if_pos h]
      refine ⟨fun p hp => ⟨le_trans hmono (ihAll p hp).1, (ihAll p hp).2⟩, ihPW, ?_⟩
      exact le_trans ihSum (Nat.sub_le_sub_left hmono exportH)
    · rw [show planAux s (c :: cs) = (s, c) :: planAux c cs from rfl, cropSlices, if_neg h]
      refine ⟨?_, ?_, ?_⟩
      · rintro p hp
        rcases List.mem_cons.mp hp with he | hm
        · subst he
          exact ⟨le_refl _, hmono, hcH⟩
        · exact ⟨le_trans hmono (ihAll p hm).1, (ihAll p hm).2⟩
      · exact List.pairwise_cons.mpr ⟨fun p hp => (ihAll p hp).1, ihPW⟩
      · have : fracRow c exportH - fracRow s exportH +
            ((cropSlices exportH (planAux c cs)).map (fun p => p.2 - p.1)).sum
            ≤ exportH - fracRow s exportH := by omega
        simpa using this

/-- C8: on a sorted cut set with cuts in `[0,1]`, the kept pixel crops are
pairwise non-overlapping, each is well-formed, and their pixel heights sum to
at most the raster height. -/
theorem cropSlices_partition (exportH : ℕ) (cuts : List ℚ)
    (hsorted : List.Sorted (· ≤ ·) cuts) (hbound : ∀ c ∈ cuts, 0 ≤ c ∧ c ≤ 1) :
    List.Pairwise (fun a b : ℕ × ℕ => a.2 ≤ b.1)
      (cropSlices exportH (plan_slices cuts)) ∧
    (∀ p ∈ cropSlices exportH (plan_slices cuts), p.1 ≤ p.2) ∧
    ((cropSlices exportH (plan_slices cuts)).map (fun p => p.2 - p.1)).sum ≤ exportH := by
  have hchain : List.Chain' (· ≤ ·) ((0 : ℚ) :: cuts) := by
    rw [List.chain'_cons']
    exact ⟨fun y hy => (hbound y (List.mem_of_mem_head? hy)).1, hsorted.chain'⟩
  obtain ⟨hAll, hPW, hSum⟩ := cropSlices_planAux_spec exportH cuts 0 le_rfl zero_le_one
    hchain (fun c hc => (hbound c hc).2)
  refine ⟨hPW, fun p hp => (hAll p hp).2.1, ?_⟩
  simpa [plan_slices, fracRow_zero] using hSum

/-- C8 witness: two cuts at 0.3 and 0.7 on a 100-pixel raster. -/
theorem cropSlices_partition_witness :
    ((cropSlices 100 (plan_slices [(3/10 : ℚ), 7/10])).map (fun p => p.2 - p.1)).sum ≤ 100 :=
  (cropSlices_partition 100 [(3/10 : ℚ), 7/10]
    (by norm_num [List.sorted_cons]) (by norm_num)).2.2

theorem not_farEnough_self (displayHeight gap : ℕ) (c : ℚ) :
    ¬ farEnough displayHeight gap c c := by
  simp [farEnough]

theorem debounceAux_sublist (displayHeight gap : ℕ) :
    ∀ (l : List ℚ) (last : ℚ), List.Sublist (debounceAux displayHeight gap last l) l := by
  intro l
  induction l with
  | nil => intro last; simp [debounceAux]
  | cons c cs ih =>
    intro last
    rw [debounceAux]
    split_ifs
    · exact (ih c).cons₂ c
    · exact (ih last).cons c

theorem debounce_sublist (displayHeight gap : ℕ) (l : List ℚ) :
    List.Sublist (debounce displayHeight gap l) l := by
  cases l with
  | nil => simp [debounce]
  | cons c cs => exact (debounceAux_sublist displayHeight gap cs c).cons₂ c

theorem chain_debounceAux (displayHeight gap : ℕ) :
    ∀ (l : List ℚ) (last : ℚ),
      List.Chain' (farEnough displayHeight gap)
        (last :: debounceAux displayHeight gap last l) := by
  intro l
  induction l with
  | nil => intro last; simp [debounceAux]
  | cons c cs ih =>
    intro last
    rw [debounceAux]
    split_ifs with h
    · exact List.chain'_cons.mpr ⟨h, ih c⟩
    · exact ih last

theorem debounceAux_eq_of_chain (displayHeight gap : ℕ) :
    ∀ (l : List ℚ) (last : ℚ),
      List.Chain' (farEnough displayHeight gap) (last :: l) →
      debounceAux displayHeight gap last l = l := by
  intro l
  induction l with
  | nil => intro last _; simp [debounceAux]
  | cons c cs ih =>
    intro last hchain
    obtain ⟨h1, h2⟩ := List.chain'_cons.mp hchain
    rw [debounceAux, if_pos h1, ih c h2]

theorem debounceAux_orderedInsert (displayHeight gap : ℕ) (c : ℚ) :
    ∀ (l : List ℚ) (last : ℚ), List.Sorted (· ≤ ·) (last :: l) → c ∈ l →
      debounceAux displayHeight gap last
        (List.orderedInsert (· ≤ ·) c (debounceAux displayHeight gap last l)) =
      debounceAux displayHeight gap last l := by
  intro l
  induction l with
  | nil => intro last _ hc; simp at hc
  | cons a l' ih =>
    intro last hsorted hc
    have hsa : List.Sorted (· ≤ ·) (a :: l') := hsorted.of_cons
    have ha_le : ∀ x ∈ l', a ≤ x := fun x hx => (List.sorted_cons.mp hsa).1 x hx
    have hac : a ≤ c := by
      rcases List.mem_cons.mp hc with rfl | hc'
      · exact le_rfl
      · exact ha_le c hc'
    by_cases hk : farEnough displayHeight gap last a
    · rw [show debounceAux displayHeight gap last (a :: l') =
          a :: debounceAux displayHeight gap a l' by rw [debounceAux, if_pos hk]]
      by_cases hca : c ≤ a
      · obtain rfl : c = a := le_antisymm hca hac
        rw [List.orderedInsert, if_pos le_rfl]
        rw [debounceAux, if_pos hk, debounceAux,
          if_neg (not_farEnough_self displayHeight gap c)]
        rw [debounceAux_eq_of_chain displayHeight gap _ c
          (chain_debounceAux displayHeight gap l' c)]
      · have hc' : c ∈ l' := by
          rcases List.mem_cons.mp hc with rfl | hc'
          · exact absurd le_rfl hca
          · exact hc'
        rw [List.orderedInsert, if_neg hca]
        rw [debounceAux, if_pos hk, ih a hsa hc']
    · rw [show debounceAux displayHeight gap last (a :: l') =
          debounceAux displayHeight gap last l' by rw [debounceAux, if_neg hk]]
      by_cases hca : c ≤ a
      · obtain rfl : c = a := le_antisymm hca hac
        have hins : List.orderedInsert (· ≤ ·) c (debounceAux displayHeight gap last l') =
            c :: debounceAux displayHeight gap last l' := by
          cases hTl : debounceAux displayHeight gap last l' with
          | nil => rw [List.orderedInsert]
          | cons b T₂ =>
            have hb : b ∈ l' :=
              (debounceAux_sublist displayHeight gap l' last).subset (by rw [hTl]; simp)
            rw [List.orderedInsert, if_pos (ha_le b hb)]
        rw [hins, debounceAux, if_neg hk,
          debounceAux_eq_of_chain displayHeight gap _ last
            (chain_debounceAux displayHeight gap l' last)]
      · have hc' : c ∈ l' := by
          rcases List.mem_cons.mp hc with rfl | hc'
          · exact absurd le_rfl hca
          · exact hc'
        have hsl : List.Sorted (· ≤ ·) (last :: l') := by
          have hsub : List.Sublist (last :: l') (last :: a :: l') :=
            (List.sublist_cons_self a l').cons₂ last
          exact hsorted.sublist hsub
        exact ih last hsl hc'

theorem debounce_orderedInsert (displayHeight gap : ℕ) (c : ℚ) (L : List ℚ)
    (hs : List.Sorted (· ≤ ·) L) (hc : c ∈ L) :
    debounce displayHeight gap
      (List.orderedInsert (· ≤ ·) c (debounce displayHeight gap L)) =
    debounce displayHeight gap L := by
  cases L with
  | nil => simp at hc
  | cons a l' =>
    have ha_le : ∀ x ∈ l', a ≤ x := fun x hx => (List.sorted_cons.mp hs).1 x hx
    have hac : a ≤ c := by
      rcases List.mem_cons.mp hc with rfl | hc'
      · exact le_rfl
      · exact ha_le c hc'
    rw [show debounce displayHeight gap (a :: l') =
        a :: debounceAux displayHeight gap a l' from rfl]
    by_cases hca : c ≤ a
    · obtain rfl : c = a := le_antisymm hca hac
      rw [List.orderedInsert, if_pos le_rfl]
      rw [show debounce displayHeight gap (c :: c :: debounceAux displayHeight gap c l') =
          c :: debounceAux displayHeight gap c (c :: debounceAux displayHeight gap c l')
          from rfl]
      rw [debounceAux, if_neg (not_farEnough_self displayHeight gap c),
        debounceAux_eq_of_chain displayHeight gap _ c
          (chain_debounceAux displayHeight gap l' c)]
    · have hc' : c ∈ l' := by
        rcases List.mem_cons.mp hc with rfl | hc'
        · exact absurd le_rfl hca
        · exact hc'
      rw [List.orderedInsert, if_neg hca]
      rw [show debounce displayHeight gap
          (a :: List.orderedInsert (· ≤ ·) c (debounceAux displayHeight gap a l')) =
          a :: debounceAux displayHeight gap a
            (List.orderedInsert (· ≤ ·) c (debounceAux displayHeight gap a l')) from rfl]
      rw [debounceAux_orderedInsert displayHeight gap c l' a hs hc']

theorem insertionSort_append_singleton (T : List ℚ) (c : ℚ)
    (hT : List.Sorted (· ≤ ·) T) :
    List.insertionSort (· ≤ ·) (T ++ [c]) = List.orderedInsert (· ≤ ·) c T := by
  refine List.eq_of_perm_of_sorted ?_ (List.sorted_insertionSort _ _) (hT.orderedInsert c T)
  exact ((List.perm_insertionSort _ _).trans
    (List.perm_append_singleton c T)).trans (List.perm_orderedInsert _ c T).symm

/-- C5: `merge_cut` is idempotent: re-merging the same fraction into its own
output (same display height, same pixel gap) returns the output unchanged. -/
theorem merge_cut_idempotent (S : List ℚ) (c : ℚ) (displayHeight gap : ℕ) :
    merge_cut (merge_cut S c displayHeight gap) c displayHeight gap =
      merge_cut S c displayHeight gap := by
  have hsorted : List.Sorted (· ≤ ·) (List.insertionSort (· ≤ ·) (S ++ [c])) :=
    List.sorted_insertionSort _ _
  have hcL : c ∈ List.insertionSort (· ≤ ·) (S ++ [c]) :=
    (List.perm_insertionSort _ _).mem_iff.mpr (by simp)
  have hTsorted : List.Sorted (· ≤ ·)
      (debounce displayHeight gap (List.insertionSort (· ≤ ·) (S ++ [c]))) :=
    hsorted.sublist (debounce_sublist displayHeight gap _)
  rw [merge_cut, merge_cut, insertionSort_append_singleton _ c hTsorted]
  exact debounce_orderedInsert displayHeight gap c _ hsorted hcL

/-- C4: the click handler computes the true-pixel row by rounding
`click_y / scale`; in range, the stored fraction times the true height recovers
the click position within one pixel and the cut is merged with the debounce
gap; out of range, the cut set is unchanged. -/
theorem map_click_spec (cuts : List ℚ) (clickY : ℕ) (scale : ℚ)
    (trueH displayHeight : ℕ) (_hs : 0 < scale) (hH : 0 < trueH) :
    (0 < pyRound ((clickY : ℚ) / scale) → pyRound ((clickY : ℚ) / scale) < trueH →
      ((pyRound ((clickY : ℚ) / scale) : ℚ) / trueH) * trueH =
        (pyRound ((clickY : ℚ) / scale) : ℚ) ∧
      |((pyRound ((clickY : ℚ) / scale) : ℚ) / trueH) * trueH - (clickY : ℚ) / scale| ≤ 1 ∧
      handle_click cuts clickY scale trueH displayHeight =
        merge_cut cuts ((pyRound ((clickY : ℚ) / scale) : ℚ) / trueH) displayHeight 12) ∧
    (¬ (0 < pyRound ((clickY : ℚ) / scale) ∧ pyRound ((clickY : ℚ) / scale) < trueH) →
      handle_click cuts clickY scale trueH displayHeight = cuts) := by
  have hHQ : ((trueH : ℚ)) ≠ 0 := by positivity
  constructor
  · intro h1 h2
    have hcancel : ((pyRound ((clickY : ℚ) / scale) : ℚ) / trueH) * trueH =
        (pyRound ((clickY : ℚ) / scale) : ℚ) := div_mul_cancel₀ _ hHQ
    refine ⟨hcancel, ?_, ?_⟩
    · rw [hcancel]
      calc |(pyRound ((clickY : ℚ) / scale) : ℚ) - (clickY : ℚ) / scale| ≤ 1/2 :=
            abs_pyRound_sub_le _
        _ ≤ 1 := by norm_num
    · rw [handle_click, if_pos ⟨h1, h2⟩]
  · intro h
    rw [handle_click, if_neg h]

/-- C4 witness: a click at display row 30 with scale 1/2 on a 100-pixel page
maps to true row 60, is recovered exactly, and is merged into the cut set. -/
theorem map_click_witness :
    ((pyRound (((30 : ℕ) : ℚ) / (1/2)) : ℚ) / ((100 : ℕ) : ℚ)) * ((100 : ℕ) : ℚ) =
      (pyRound (((30 : ℕ) : ℚ) / (1/2)) : ℚ) ∧
    |((pyRound (((30 : ℕ) : ℚ) / (1/2)) : ℚ) / ((100 : ℕ) : ℚ)) * ((100 : ℕ) : ℚ) -
      ((30 : ℕ) : ℚ) / (1/2)| ≤ 1 ∧
    handle_click [] 30 (1/2) 100 50 =
      merge_cut [] ((pyRound (((30 : ℕ) : ℚ) / (1/2)) : ℚ) / ((100 : ℕ) : ℚ)) 50 12 :=
  (map_click_spec [] 30 (1/2) 100 50 (by norm_num) (by norm_num)).1
    (by norm_num [pyRound]) (by norm_num [pyRound])

/-- C10 counterexample: an export invocation at requested DPI 10 (reachable:
the budget search lowers DPI to a floor of 10) on a US-letter page does not
breach the pixel ceiling, so no reduction happens and the effective DPI stays
10, far below 72. -/
theorem dpi_value_below_72 :
    dpi_value 612 792 10 = 10 ∧ dpi_value 612 792 10 < 72 := by
  have h1 : pxOfPt 612 10 = 85 := by
    norm_num [pxOfPt, pyInt]
    decide
  have h2 : pxOfPt 792 10 = 110 := by
    norm_num [pxOfPt, pyInt]
    decide
  rw [dpi_value, h1, h2]
  norm_num [maxExportPixels]

/-- C10 (amended): the effective DPI is at least `min 72 requested`; whenever
the requested raster breaches the pixel ceiling the effective DPI is at least
72, and hence a requested DPI of at least 72 always yields an effective DPI of
at least 72 — but a small requested DPI on a small page is used unchanged. -/
theorem dpi_value_lower_bound (pageW pageH : ℚ) (dpi : ℕ) :
    min 72 dpi ≤ dpi_value pageW pageH dpi ∧
    (maxExportPixels < pxOfPt pageW dpi * pxOfPt pageH dpi →
      72 ≤ dpi_value pageW pageH dpi) ∧
    (72 ≤ dpi → 72 ≤ dpi_value pageW pageH dpi) := by
  unfold dpi_value
  split_ifs with h
  · exact ⟨le_trans (min_le_left _ _) (le_max_left _ _),
      fun _ => le_max_left _ _, fun _ => le_max_left _ _⟩
  · exact ⟨min_le_right _ _, fun hc => absurd hc h, fun h72 => h72⟩

/-- C10 witness: a breach of the ceiling (a 10⁶ pt square page at 72 DPI)
forces an effective DPI of at least 72. -/
theorem dpi_value_lower_bound_witness : 72 ≤ dpi_value 1000000 1000000 72 :=
  (dpi_value_lower_bound 1000000 1000000 72).2.1
    (by norm_num [pxOfPt, pyInt, maxExportPixels]; decide)

/-- C1 counterexample: on a 10⁶ pt square page at requested DPI 72 the
requested raster has 10¹² pixels, far above the ceiling, yet the 72-DPI floor
in `export_with_dpi` brings the reduced DPI back to 72, so the raster is left
at 10¹² pixels: the ceiling is not enforced. -/
theorem pixel_ceiling_counterexample :
    maxExportPixels < pxOfPt 1000000 72 * pxOfPt 1000000 72 ∧
    maxExportPixels <
      (export_raster 1000000 1000000 72 (pxOfPt 1000000 72) (pxOfPt 1000000 72) 72).1 *
      (export_raster 1000000 1000000 72 (pxOfPt 1000000 72) (pxOfPt 1000000 72) 72).2 := by
  have hpx : pxOfPt 1000000 72 = 1000000 := by
    norm_num [pxOfPt, pyInt]
    decide
  constructor
  · rw [hpx]
    norm_num [maxExportPixels]
  · simp only [export_raster, dpi_value, hpx]
    decide

theorem pxOfPt_cast_le {pt : ℚ} (dpi : ℕ) (h : 0 ≤ pt) :
    (pxOfPt pt dpi : ℚ) ≤ pt * dpi / 72 := by
  have h0 : (0 : ℚ) ≤ pt * dpi / 72 := by positivity
  rw [pxOfPt, pyInt_of_nonneg h0]
  calc ((⌊pt * dpi / 72⌋.toNat : ℕ) : ℚ) = (⌊pt * dpi / 72⌋ : ℚ) := by
        exact_mod_cast Int.toNat_of_nonneg (Int.floor_nonneg.mpr h0)
    _ ≤ pt * dpi / 72 := Int.floor_le _

theorem mul_div_lt_pxOfPt_add_one {pt : ℚ} (dpi : ℕ) (h : 0 ≤ pt) :
    pt * dpi / 72 < (pxOfPt pt dpi : ℚ) + 1 := by
  have h0 : (0 : ℚ) ≤ pt * dpi / 72 := by positivity
  rw [pxOfPt, pyInt_of_nonneg h0]
  have hcast : ((⌊pt * dpi / 72⌋.toNat : ℕ) : ℚ) = (⌊pt * dpi / 72⌋ : ℚ) := by
    exact_mod_cast Int.toNat_of_nonneg (Int.floor_nonneg.mpr h0)
  rw [hcast]
  exact Int.lt_floor_add_one _

theorem div_lt_natCast_div_add_one (a b : ℕ) (hb : 0 < b) :
    (a : ℚ) / b < ((a / b : ℕ) : ℚ) + 1 := by
  have hmod : a % b < b := Nat.mod_lt a hb
  have hdm : b * (a / b) + a % b = a := Nat.div_add_mod a b
  have h1 : (a : ℚ) < b * ((a / b : ℕ) : ℚ) + b := by
    have : (a : ℕ) < b * (a / b) + b := by omega
    exact_mod_cast this
  rw [div_lt_iff₀ (show (0:ℚ) < b by positivity)]
  linarith

/-- Physical-size recovery for a resized side: the resized pixel side times the
effective pixel pitch `72/s` undershoots the true physical side by less than
one pixel at the base DPI plus one pixel at the effective DPI. -/
theorem resize_pt_bounds (pagePt : ℚ) (baseDpi side s : ℕ) (hpt : 0 ≤ pagePt)
    (hside : side = pxOfPt pagePt baseDpi) (hbase : 0 < baseDpi) (hs : 0 < s)
    (hclamp : 1 ≤ side * s / baseDpi) :
    ((resizeDim side s baseDpi : ℕ) : ℚ) * (72 / s) ≤ pagePt ∧
    pagePt - 72 / baseDpi - 72 / s < ((resizeDim side s baseDpi : ℕ) : ℚ) * (72 / s) := by
  have hrw : resizeDim side s baseDpi = side * s / baseDpi := by
    rw [resizeDim]
    exact Nat.max_eq_right hclamp
  have hBQ : (0:ℚ) < (baseDpi : ℚ) := by exact_mod_cast hbase
  have hsQ : (0:ℚ) < (s : ℚ) := by exact_mod_cast hs
  have htQ : (0:ℚ) < 72 / (s : ℚ) := by positivity
  have hup0 : ((side * s / baseDpi : ℕ) : ℚ) ≤ (side : ℚ) * s / baseDpi := by
    calc ((side * s / baseDpi : ℕ) : ℚ) ≤ ((side * s : ℕ) : ℚ) / baseDpi := Nat.cast_div_le
      _ = (side : ℚ) * s / baseDpi := by push_cast; ring
  have hlo0 : (side : ℚ) * s / baseDpi < ((side * s / baseDpi : ℕ) : ℚ) + 1 := by
    have := div_lt_natCast_div_add_one (side * s) baseDpi hbase
    calc (side : ℚ) * s / baseDpi = ((side * s : ℕ) : ℚ) / baseDpi := by push_cast; ring
      _ < ((side * s / baseDpi : ℕ) : ℚ) + 1 := this
  have hside_up : (side : ℚ) ≤ pagePt * baseDpi / 72 := hside ▸ pxOfPt_cast_le baseDpi hpt
  have hside_lo : pagePt * baseDpi / 72 < (side : ℚ) + 1 :=
    hside ▸ mul_div_lt_pxOfPt_add_one baseDpi hpt
  have hb0 : (baseDpi : ℚ) ≠ 0 := ne_of_gt hBQ
  have hs0 : (s : ℚ) ≠ 0 := ne_of_gt hsQ
  have hN_up : ((side * s / baseDpi : ℕ) : ℚ) * baseDpi ≤ (side : ℚ) * s :=
    (le_div_iff₀ hBQ).mp hup0
  have hN_lo : (side : ℚ) * s < (((side * s / baseDpi : ℕ) : ℚ) + 1) * baseDpi := by
    have := (div_lt_iff₀ hBQ).mp hlo0
    linarith
  have hside_up' : (side : ℚ) * 72 ≤ pagePt * baseDpi :=
    (le_div_iff₀ (show (0:ℚ) < 72 by norm_num)).mp hside_up
  have hside_lo' : pagePt * baseDpi < ((side : ℚ) + 1) * 72 :=
    (div_lt_iff₀ (show (0:ℚ) < 72 by norm_num)).mp hside_lo
  rw [hrw]
  constructor
  · have e0 : ((side * s / baseDpi : ℕ) : ℚ) * baseDpi * 72 ≤ (side : ℚ) * s * 72 :=
      mul_le_mul_of_nonneg_right hN_up (by norm_num)
    have e1 : (side : ℚ) * 72 * s ≤ pagePt * baseDpi * s :=
      mul_le_mul_of_nonneg_right hside_up' hsQ.le
    have e2 : ((side * s / baseDpi : ℕ) : ℚ) * 72 * baseDpi ≤ pagePt * s * baseDpi := by
      linarith
    have e3 : ((side * s / baseDpi : ℕ) : ℚ) * 72 ≤ pagePt * s :=
      (mul_le_mul_right hBQ).mp e2
    calc ((side * s / baseDpi : ℕ) : ℚ) * (72 / s) = ((side * s / baseDpi : ℕ) : ℚ) * 72 / s := by
          ring
      _ ≤ pagePt * s / s := (div_le_div_iff_of_pos_right hsQ).mpr e3
      _ = pagePt := mul_div_cancel_right₀ pagePt hs0
  · have m1 : pagePt * baseDpi * s < ((side : ℚ) + 1) * 72 * s :=
      mul_lt_mul_of_pos_right hside_lo' hsQ
    have m2 : (side : ℚ) * s * 72 < (((side * s / baseDpi : ℕ) : ℚ) + 1) * baseDpi * 72 :=
      mul_lt_mul_of_pos_right hN_lo (by norm_num)
    have key : pagePt * s * baseDpi - 72 * s - 72 * baseDpi <
        ((side * s / baseDpi : ℕ) : ℚ) * 72 * baseDpi := by
      nlinarith [m1, m2]
    have h2 : (pagePt - 72 / baseDpi - 72 / s) * (s * baseDpi) <
        (((side * s / baseDpi : ℕ) : ℚ) * (72 / s)) * (s * baseDpi) := by
      calc (pagePt - 72 / baseDpi - 72 / s) * (s * baseDpi)
          = pagePt * s * baseDpi - 72 / baseDpi * baseDpi * s - 72 / s * s * baseDpi := by
            ring
        _ = pagePt * s * baseDpi - 72 * s - 72 * baseDpi := by
            rw [div_mul_cancel₀ (72 : ℚ) hb0, div_mul_cancel₀ (72 : ℚ) hs0]
        _ < ((side * s / baseDpi : ℕ) : ℚ) * 72 * baseDpi := key
        _ = (((side * s / baseDpi : ℕ) : ℚ) * (72 / s)) * (s * baseDpi) := by
            field_simp
            ring
    exact lt_of_mul_lt_mul_right h2 (mul_pos hsQ hBQ).le

/-- Per-slice physical-height recovery: the cropped pixel height times the
effective pixel pitch `72/s` matches the slice's share of the physical page
height to within one base-DPI pixel plus two effective-DPI pixels. -/
theorem slice_height_bounds (pageH : ℚ) (baseDpi s H2 : ℕ)
    (hs : 0 < s)
    (hup : (H2 : ℚ) * (72 / s) ≤ pageH)
    (hlo : pageH - 72 / baseDpi - 72 / s < (H2 : ℚ) * (72 / s))
    (y0 y1 : ℚ) (hy0 : 0 ≤ y0) (hy01 : y0 ≤ y1) (hy1 : y1 ≤ 1) :
    (y1 - y0) * pageH - (72 / baseDpi + 2 * (72 / s)) ≤
      ((fracRow y1 H2 - fracRow y0 H2 : ℕ) : ℚ) * (72 / s) ∧
    ((fracRow y1 H2 - fracRow y0 H2 : ℕ) : ℚ) * (72 / s) ≤
      (y1 - y0) * pageH + 72 / s := by
  have hy0' : 0 ≤ y1 := le_trans hy0 hy01
  have hAB : fracRow y0 H2 ≤ fracRow y1 H2 := fracRow_mono H2 hy0 hy01
  have hcast : ((fracRow y1 H2 - fracRow y0 H2 : ℕ) : ℚ) =
      (fracRow y1 H2 : ℚ) - fracRow y0 H2 := by
    push_cast [hAB]
    ring
  have hBle : (fracRow y1 H2 : ℚ) ≤ y1 * H2 := fracRow_le_mul H2 hy0'
  have hBgt : y1 * H2 < (fracRow y1 H2 : ℚ) + 1 := mul_lt_fracRow_add_one H2 hy0'
  have hAle : (fracRow y0 H2 : ℚ) ≤ y0 * H2 := fracRow_le_mul H2 hy0
  have hAgt : y0 * H2 < (fracRow y0 H2 : ℚ) + 1 := mul_lt_fracRow_add_one H2 hy0
  have htQ : (0:ℚ) < 72 / (s : ℚ) := by positivity
  have hsub : (0:ℚ) ≤ y1 - y0 := by linarith
  have hsub1 : y1 - y0 ≤ 1 := by linarith
  have hdiff_up : (fracRow y1 H2 : ℚ) - fracRow y0 H2 ≤ (y1 - y0) * H2 + 1 := by nlinarith
  have hdiff_lo : (y1 - y0) * H2 - 1 ≤ (fracRow y1 H2 : ℚ) - fracRow y0 H2 := by nlinarith
  rw [hcast]
  constructor
  · have t1 : ((y1 - y0) * H2 - 1) * (72 / s) ≤
        ((fracRow y1 H2 : ℚ) - fracRow y0 H2) * (72 / s) :=
      mul_le_mul_of_nonneg_right hdiff_lo htQ.le
    have t2 : (y1 - y0) * (pageH - 72 / baseDpi - 72 / s) ≤ (y1 - y0) * ((H2 : ℚ) * (72 / s)) :=
      mul_le_mul_of_nonneg_left hlo.le hsub
    have heps : (0:ℚ) ≤ 72 / (baseDpi : ℚ) + 72 / s := by positivity
    have t3 : (y1 - y0) * (72 / (baseDpi : ℚ) + 72 / s) ≤ 72 / (baseDpi : ℚ) + 72 / s := by
      nlinarith
    nlinarith [t1, t2, t3]
  · have t1 : ((fracRow y1 H2 : ℚ) - fracRow y0 H2) * (72 / s) ≤
        ((y1 - y0) * H2 + 1) * (72 / s) :=
      mul_le_mul_of_nonneg_right hdiff_up htQ.le
    have t2 : (y1 - y0) * ((H2 : ℚ) * (72 / s)) ≤ (y1 - y0) * pageH :=
      mul_le_mul_of_nonneg_left hup hsub
    nlinarith [t1, t2]

/-- Physical-size recovery for an unresized side of the base render. -/
theorem base_pt_bounds (pagePt : ℚ) (baseDpi side : ℕ) (hpt : 0 ≤ pagePt)
    (hside : side = pxOfPt pagePt baseDpi) (hbase : 0 < baseDpi) :
    (side : ℚ) * (72 / baseDpi) ≤ pagePt ∧
    pagePt - 72 / baseDpi < (side : ℚ) * (72 / baseDpi) := by
  have hBQ : (0:ℚ) < (baseDpi : ℚ) := by exact_mod_cast hbase
  have hb0 : (baseDpi : ℚ) ≠ 0 := ne_of_gt hBQ
  have hside_up : (side : ℚ) * 72 ≤ pagePt * baseDpi :=
    (le_div_iff₀ (show (0:ℚ) < 72 by norm_num)).mp (hside ▸ pxOfPt_cast_le baseDpi hpt)
  have hside_lo : pagePt * baseDpi < ((side : ℚ) + 1) * 72 :=
    (div_lt_iff₀ (show (0:ℚ) < 72 by norm_num)).mp
      (hside ▸ mul_div_lt_pxOfPt_add_one baseDpi hpt)
  constructor
  · rw [show (side : ℚ) * (72 / baseDpi) = side * 72 / baseDpi from by ring,
      div_le_iff₀ hBQ]
    linarith
  · rw [show (side : ℚ) * (72 / baseDpi) = side * 72 / baseDpi from by ring,
      lt_div_iff₀ hBQ]
    have hexp : (pagePt - 72 / baseDpi) * baseDpi = pagePt * baseDpi - 72 := by
      rw [sub_mul, div_mul_cancel₀ _ hb0]
    rw [hexp]
    linarith

/-- C1 (amended): for an export invocation at any requested DPI — the initial
export or a budget-search retry — whose requested raster exceeds the pixel
ceiling, provided the 72-DPI floor does not engage (the square-root-scaled DPI
is already at least 72), the 1-pixel resize floors do not engage, and the
truncated requested raster computation carries no more relative truncation
slack than the base render (baseW·baseH·reqDpi² at most baseDpi²·wᵣ·hᵣ), the
actual output raster respects the 250,000,000-pixel ceiling, and physical
sizes recomputed from crop pixels at the effective DPI match the original
page: the width to within one pixel at each of the base and effective DPIs,
and every slice's height to within one base-DPI pixel plus two effective-DPI
pixels. -/
theorem export_with_dpi_ceiling (pageW pageH : ℚ) (baseDpi baseW baseH reqDpi : ℕ)
    (hW : 0 ≤ pageW) (hH : 0 ≤ pageH)
    (hbW : baseW = pxOfPt pageW baseDpi) (hbH : baseH = pxOfPt pageH baseDpi)
    (hover : maxExportPixels < pxOfPt pageW reqDpi * pxOfPt pageH reqDpi)
    (hsqrt : 72 ≤ Nat.sqrt (reqDpi ^ 2 * maxExportPixels /
      (pxOfPt pageW reqDpi * pxOfPt pageH reqDpi)))
    (hslack : baseW * baseH * reqDpi ^ 2 ≤
      baseDpi ^ 2 * (pxOfPt pageW reqDpi * pxOfPt pageH reqDpi))
    (hr1 : 1 ≤ baseW * Nat.sqrt (reqDpi ^ 2 * maxExportPixels /
      (pxOfPt pageW reqDpi * pxOfPt pageH reqDpi)) / baseDpi)
    (hr2 : 1 ≤ baseH * Nat.sqrt (reqDpi ^ 2 * maxExportPixels /
      (pxOfPt pageW reqDpi * pxOfPt pageH reqDpi)) / baseDpi) :
    (export_raster pageW pageH baseDpi baseW baseH reqDpi).1 *
        (export_raster pageW pageH baseDpi baseW baseH reqDpi).2 ≤ maxExportPixels ∧
    ((export_raster pageW pageH baseDpi baseW baseH reqDpi).1 : ℚ) *
        (72 / (dpi_value pageW pageH reqDpi : ℚ)) ≤ pageW ∧
    pageW - 72 / (baseDpi : ℚ) - 72 / (dpi_value pageW pageH reqDpi : ℚ) <
      ((export_raster pageW pageH baseDpi baseW baseH reqDpi).1 : ℚ) *
        (72 / (dpi_value pageW pageH reqDpi : ℚ)) ∧
    ∀ y0 y1 : ℚ, 0 ≤ y0 → y0 ≤ y1 → y1 ≤ 1 →
      (y1 - y0) * pageH -
          (72 / (baseDpi : ℚ) + 2 * (72 / (dpi_value pageW pageH reqDpi : ℚ))) ≤
        ((fracRow y1 (export_raster pageW pageH baseDpi baseW baseH reqDpi).2 -
            fracRow y0 (export_raster pageW pageH baseDpi baseW baseH reqDpi).2 : ℕ) : ℚ) *
          (72 / (dpi_value pageW pageH reqDpi : ℚ)) ∧
      ((fracRow y1 (export_raster pageW pageH baseDpi baseW baseH reqDpi).2 -
          fracRow y0 (export_raster pageW pageH baseDpi baseW baseH reqDpi).2 : ℕ) : ℚ) *
          (72 / (dpi_value pageW pageH reqDpi : ℚ)) ≤
        (y1 - y0) * pageH + 72 / (dpi_value pageW pageH reqDpi : ℚ) := by
  have hd_eq : dpi_value pageW pageH reqDpi =
      Nat.sqrt (reqDpi ^ 2 * maxExportPixels /
        (pxOfPt pageW reqDpi * pxOfPt pageH reqDpi)) := by
    rw [dpi_value, if_pos hover]
    exact Nat.max_eq_right hsqrt
  set s := Nat.sqrt (reqDpi ^ 2 * maxExportPixels /
    (pxOfPt pageW reqDpi * pxOfPt pageH reqDpi)) with hs_def
  have hbase : 0 < baseDpi := by
    rcases Nat.eq_zero_or_pos baseDpi with h0 | h0
    · rw [h0, Nat.div_zero] at hr1
      exact absurd hr1 (by norm_num)
    · exact h0
  have hs_pos : 0 < s := lt_of_lt_of_le (by norm_num) hsqrt
  have hTpos : 0 < pxOfPt pageW reqDpi * pxOfPt pageH reqDpi :=
    lt_of_le_of_lt (Nat.zero_le _) hover
  have hsqT : s * s * (pxOfPt pageW reqDpi * pxOfPt pageH reqDpi) ≤
      reqDpi ^ 2 * maxExportPixels := by
    have h1 : s ^ 2 ≤ reqDpi ^ 2 * maxExportPixels /
        (pxOfPt pageW reqDpi * pxOfPt pageH reqDpi) := by
      rw [hs_def]
      exact Nat.sqrt_le' _
    calc s * s * (pxOfPt pageW reqDpi * pxOfPt pageH reqDpi)
        = s ^ 2 * (pxOfPt pageW reqDpi * pxOfPt pageH reqDpi) := by ring
      _ ≤ reqDpi ^ 2 * maxExportPixels /
            (pxOfPt pageW reqDpi * pxOfPt pageH reqDpi) *
            (pxOfPt pageW reqDpi * pxOfPt pageH reqDpi) := Nat.mul_le_mul_right _ h1
      _ ≤ reqDpi ^ 2 * maxExportPixels := Nat.div_mul_le_self _ _
  have hmain : baseW * baseH * (s * s) ≤ baseDpi ^ 2 * maxExportPixels := by
    refine Nat.le_of_mul_le_mul_right ?_ hTpos
    calc baseW * baseH * (s * s) * (pxOfPt pageW reqDpi * pxOfPt pageH reqDpi)
        = baseW * baseH * (s * s * (pxOfPt pageW reqDpi * pxOfPt pageH reqDpi)) := by ring
      _ ≤ baseW * baseH * (reqDpi ^ 2 * maxExportPixels) := Nat.mul_le_mul_left _ hsqT
      _ = baseW * baseH * reqDpi ^ 2 * maxExportPixels := by ring
      _ ≤ baseDpi ^ 2 * (pxOfPt pageW reqDpi * pxOfPt pageH reqDpi) * maxExportPixels :=
          Nat.mul_le_mul_right _ hslack
      _ = baseDpi ^ 2 * maxExportPixels *
            (pxOfPt pageW reqDpi * pxOfPt pageH reqDpi) := by ring
  by_cases hcase : s = baseDpi
  · have hre : export_raster pageW pageH baseDpi baseW baseH reqDpi = (baseW, baseH) := by
      rw [export_raster, if_pos (by rw [hd_eq]; exact hcase)]
    obtain ⟨hwu, hwl⟩ := base_pt_bounds pageW baseDpi baseW hW hbW hbase
    obtain ⟨hhu, hhl⟩ := base_pt_bounds pageH baseDpi baseH hH hbH hbase
    have h72 : (0:ℚ) < 72 / (baseDpi : ℚ) := by positivity
    rw [hre, hd_eq, hcase]
    refine ⟨?_, hwu, by linarith, ?_⟩
    · have h' : baseW * baseH * (baseDpi * baseDpi) ≤
          maxExportPixels * (baseDpi * baseDpi) := by
        rw [hcase] at hmain
        calc baseW * baseH * (baseDpi * baseDpi)
            ≤ baseDpi ^ 2 * maxExportPixels := hmain
          _ = maxExportPixels * (baseDpi * baseDpi) := by ring
      exact Nat.le_of_mul_le_mul_right h' (Nat.mul_pos hbase hbase)
    · intro y0 y1 hy0 hy01 hy1
      exact slice_height_bounds pageH baseDpi baseDpi baseH hbase hhu (by linarith)
        y0 y1 hy0 hy01 hy1
  · have hre : export_raster pageW pageH baseDpi baseW baseH reqDpi =
        (resizeDim baseW s baseDpi, resizeDim baseH s baseDpi) := by
      rw [export_raster, if_neg (by rw [hd_eq]; exact hcase), hd_eq]
    have hWr : resizeDim baseW s baseDpi = baseW * s / baseDpi := by
      rw [resizeDim]
      exact Nat.max_eq_right hr1
    have hHr : resizeDim baseH s baseDpi = baseH * s / baseDpi := by
      rw [resizeDim]
      exact Nat.max_eq_right hr2
    have hpix : resizeDim baseW s baseDpi * resizeDim baseH s baseDpi ≤ maxExportPixels := by
      rw [hWr, hHr]
      calc baseW * s / baseDpi * (baseH * s / baseDpi)
          ≤ baseW * s * (baseH * s) / (baseDpi * baseDpi) := Nat.div_mul_div_le _ _ _ _
        _ = baseW * baseH * (s * s) / baseDpi ^ 2 := by
            congr 1
            · ring
            · ring
        _ ≤ baseDpi ^ 2 * maxExportPixels / baseDpi ^ 2 := Nat.div_le_div_right hmain
        _ = maxExportPixels := Nat.mul_div_cancel_left _ (pow_pos hbase 2)
    obtain ⟨hw_up, hw_lo⟩ := resize_pt_bounds pageW baseDpi baseW s hW hbW hbase hs_pos hr1
    obtain ⟨hh_up, hh_lo⟩ := resize_pt_bounds pageH baseDpi baseH s hH hbH hbase hs_pos hr2
    rw [hre, hd_eq]
    exact ⟨hpix, hw_up, hw_lo, fun y0 y1 hy0 hy01 hy1 =>
      slice_height_bounds pageH baseDpi s (resizeDim baseH s baseDpi) hs_pos hh_up hh_lo
        y0 y1 hy0 hy01 hy1⟩

/-- C1 witness: a 14400 pt square page rendered at the Gradescope base DPI 220
and exported at the budget-retry DPI 176 breaches the ceiling; the scaled DPI
is 79, no floor engages, the slack proviso holds with equality, and the
15800-pixel-square resized raster respects the ceiling. -/
theorem export_with_dpi_ceiling_witness :
    (export_raster 14400 14400 220 44000 44000 176).1 *
      (export_raster 14400 14400 220 44000 44000 176).2 ≤ maxExportPixels := by
  have hpx : pxOfPt 14400 176 = 35200 := by
    norm_num [pxOfPt, pyInt]
    decide
  have hsq : Nat.sqrt (176 ^ 2 * maxExportPixels / (35200 * 35200)) = 79 := by
    have h1 : 79 ≤ Nat.sqrt (176 ^ 2 * maxExportPixels / (35200 * 35200)) :=
      Nat.le_sqrt.mpr (by decide)
    have h2 : Nat.sqrt (176 ^ 2 * maxExportPixels / (35200 * 35200)) < 80 :=
      Nat.sqrt_lt.mpr (by decide)
    omega
  exact (export_with_dpi_ceiling 14400 14400 220 44000 44000 176 (by norm_num) (by norm_num)
    (by norm_num [pxOfPt, pyInt]; decide) (by norm_num [pxOfPt, pyInt]; decide)
    (by rw [hpx]; decide) (by rw [hpx, hsq]; decide) (by rw [hpx]; decide)
    (by rw [hpx, hsq]; decide) (by rw [hpx, hsq]; decide)).1

theorem dpiStep_le_sub_one {d : ℕ} (hd : 10 < d) : dpiStep d ≤ d - 1 := by
  rw [dpiStep]
  omega

theorem dpiScalingsAux_congr :
    ∀ (f1 f2 d : ℕ), d ≤ f1 → d ≤ f2 → dpiScalingsAux f1 d = dpiScalingsAux f2 d := by
  intro f1
  induction f1 with
  | zero =>
    intro f2 d h1 _
    obtain rfl : d = 0 := Nat.le_zero.mp h1
    cases f2 with
    | zero => rfl
    | succ f2 => simp [dpiScalingsAux]
  | succ f1 ih =>
    intro f2 d h1 h2
    cases f2 with
    | zero =>
      obtain rfl : d = 0 := Nat.le_zero.mp h2
      simp [dpiScalingsAux]
    | succ f2 =>
      rw [dpiScalingsAux, dpiScalingsAux]
      split_ifs with h
      · rfl
      · have hstep : dpiStep d ≤ d - 1 := dpiStep_le_sub_one (by omega)
        rw [ih f2 (dpiStep d) (by omega) (by omega)]

theorem dpiScalings_unfold (d : ℕ) :
    dpiScalings d = if d ≤ 10 then 0 else dpiScalings (dpiStep d) + 1 := by
  rw [dpiScalings]
  cases d with
  | zero => simp [dpiScalingsAux]
  | succ n =>
    rw [dpiScalingsAux]
    split_ifs with h
    · rfl
    · have hstep : dpiStep (n + 1) ≤ n := by
        have := dpiStep_le_sub_one (show 10 < n + 1 by omega)
        omega
      rw [dpiScalingsAux_congr n (dpiStep (n + 1)) (dpiStep (n + 1)) hstep le_rfl]
      rfl

theorem budgetStep_inv (p : ℕ × ℕ) :
    10 ≤ (budgetStep p).1 ∧ 30 ≤ (budgetStep p).2 := by
  simp [budgetStep, dpiStep]

theorem budgetStep_le {p : ℕ × ℕ} (h1 : 10 ≤ p.1) (h2 : 30 ≤ p.2) :
    (budgetStep p).1 ≤ p.1 ∧ (budgetStep p).2 ≤ p.2 := by
  obtain ⟨d, q⟩ := p
  simp only [budgetStep, dpiStep]
  constructor <;> omega

theorem budgetStep_eq_self_iff {p : ℕ × ℕ} (h1 : 10 ≤ p.1) (h2 : 30 ≤ p.2) :
    budgetStep p = p ↔ p = (10, 30) := by
  obtain ⟨d, q⟩ := p
  simp only [budgetStep, dpiStep, Prod.mk.injEq] at h1 h2 ⊢
  omega

theorem budgetMeasure_decrease {p : ℕ × ℕ} (h1 : 10 ≤ p.1) (h2 : 30 ≤ p.2)
    (hne : budgetStep p ≠ p) : budgetMeasure (budgetStep p) < budgetMeasure p := by
  obtain ⟨d, q⟩ := p
  simp only at h1 h2
  have hne' : ¬ (d = 10 ∧ q = 30) := by
    intro hc
    exact hne ((budgetStep_eq_self_iff h1 h2).mpr (by simp [hc.1, hc.2]))
  rcases Nat.lt_or_ge 10 d with hd | hd
  · have hS : dpiScalings d = dpiScalings (dpiStep d) + 1 := by
      rw [dpiScalings_unfold d, if_neg (by omega)]
    rcases Nat.lt_or_ge 30 q with hq | hq
    · have hQ : qSteps (max 30 (q - 10)) + 1 = qSteps q := by
        rw [qSteps, qSteps]
        omega
      simp only [budgetMeasure, budgetStep]
      omega
    · have hq30 : q = 30 := by omega
      subst hq30
      have hQ1 : qSteps (max 30 (30 - 10)) = 0 := by decide
      have hQ2 : qSteps 30 = 0 := by decide
      simp only [budgetMeasure, budgetStep]
      rw [hQ1, hQ2, hS]
      omega
  · have hd10 : d = 10 := by omega
    subst hd10
    have hq : 30 < q := by omega
    have hQ : qSteps (max 30 (q - 10)) + 1 = qSteps q := by
      rw [qSteps, qSteps]
      omega
    have hds : dpiStep 10 = 10 := by decide
    have hS10 : dpiScalings 10 = 0 := by decide
    simp only [budgetMeasure, budgetStep, hds, hS10]
    omega

theorem budgetSearch_spec (size : ℕ × ℕ → ℕ) (targetMb : ℚ) :
    ∀ (fuel : ℕ) (p : ℕ × ℕ), 10 ≤ p.1 → 30 ≤ p.2 → budgetMeasure p < fuel →
      ∃ t : List (ℕ × ℕ), budgetSearch size targetMb fuel p = some t ∧
        t.length ≤ budgetMeasure p ∧
        (¬ ((size (t.getLastD p) : ℚ) / 1000000 > targetMb) ∨
          budgetStep (t.getLastD p) = t.getLastD p) := by
  intro fuel
  induction fuel with
  | zero =>
    intro p _ _ hm
    exact absurd hm (Nat.not_lt_zero _)
  | succ fuel ih =>
    intro p h1 h2 hm
    rw [budgetSearch]
    by_cases hsize : (size p : ℚ) / 1000000 > targetMb
    · rw [if_pos hsize]
      by_cases hstall : budgetStep p = p
      · rw [if_pos hstall]
        exact ⟨[], rfl, by simp, Or.inr hstall⟩
      · rw [if_neg hstall]
        have hinv := budgetStep_inv p
        have hdec := budgetMeasure_decrease h1 h2 hstall
        obtain ⟨t, ht, hlen, hterm⟩ := ih (budgetStep p) hinv.1 hinv.2 (by omega)
        refine ⟨budgetStep p :: t, by rw [ht]; rfl, ?_, ?_⟩
        · simp only [List.length_cons]
          omega
        · rw [List.getLastD_cons]
          exact hterm
    · rw [if_neg hsize]
      exact ⟨[], rfl, by simp, Or.inl hsize⟩

/-- C2: for every document (size oracle) and target size, starting from a base
pair at or above the floors whose quality floor is reached no later than the
DPI floor (true of the source's Gradescope base (220, 80): 5 quality drops
versus 13 DPI scalings), the budget search returns within fuel
`dpiScalings d + 1`: the trace has at most `dpiScalings d` degrade steps (so
the iteration count is bounded by the number of 0.80-scalings from the base
DPI to the floor), and the final setting either meets the target or is a
stalled pair whose output is returned best-effort. -/
theorem budget_search_terminates (size : ℕ × ℕ → ℕ) (targetMb : ℚ) (d q : ℕ)
    (h1 : 10 ≤ d) (h2 : 30 ≤ q) (hq : qSteps q ≤ dpiScalings d) :
    ∃ t : List (ℕ × ℕ),
      budgetSearch size targetMb (dpiScalings d + 1) (d, q) = some t ∧
      t.length ≤ dpiScalings d ∧
      (¬ ((size (t.getLastD (d, q)) : ℚ) / 1000000 > targetMb) ∨
        budgetStep (t.getLastD (d, q)) = t.getLastD (d, q)) := by
  have hmeas : budgetMeasure (d, q) = dpiScalings d := by
    rw [budgetMeasure]
    exact max_eq_left hq
  obtain ⟨t, ht, hlen, hterm⟩ := budgetSearch_spec size targetMb (dpiScalings d + 1) (d, q)
    h1 h2 (by omega)
  exact ⟨t, ht, by omega, hterm⟩

/-- C2 witness: the scenario oracle (60 MB until settings drop to (112, 50),
then 40 MB) from base (220, 80) with a 50 MB target. -/
theorem budget_search_terminates_witness :
    ∃ t : List (ℕ × ℕ),
      budgetSearch scenarioSize 50 (dpiScalings 220 + 1) (220, 80) = some t ∧
      t.length ≤ dpiScalings 220 ∧
      (¬ ((scenarioSize (t.getLastD (220, 80)) : ℚ) / 1000000 > 50) ∨
        budgetStep (t.getLastD (220, 80)) = t.getLastD (220, 80)) :=
  budget_search_terminates scenarioSize 50 220 80 (by norm_num) (by norm_num) (by decide)

theorem budgetSearch_chain (size : ℕ × ℕ → ℕ) (targetMb : ℚ) :
    ∀ (fuel : ℕ) (p : ℕ × ℕ) (t : List (ℕ × ℕ)), 10 ≤ p.1 → 30 ≤ p.2 →
      budgetSearch size targetMb fuel p = some t →
      List.Chain' (fun a b : ℕ × ℕ => b.1 ≤ a.1 ∧ b.2 ≤ a.2) (p :: t) := by
  intro fuel
  induction fuel with
  | zero =>
    intro p t _ _ heq
    exact absurd heq (by rw [budgetSearch]; exact Option.noConfusion)
  | succ fuel ih =>
    intro p t h1 h2 heq
    rw [budgetSearch] at heq
    by_cases hsize : (size p : ℚ) / 1000000 > targetMb
    · rw [if_pos hsize] at heq
      by_cases hstall : budgetStep p = p
      · rw [if_pos hstall] at heq
        obtain rfl : ([] : List (ℕ × ℕ)) = t := Option.some.inj heq
        simp
      · rw [if_neg hstall] at heq
        obtain ⟨t', ht', rfl⟩ := Option.map_eq_some'.mp heq
        have hinv := budgetStep_inv p
        exact List.chain'_cons.mpr
          ⟨budgetStep_le h1 h2, ih (budgetStep p) t' hinv.1 hinv.2 ht'⟩
    · rw [if_neg hsize] at heq
      obtain rfl : ([] : List (ℕ × ℕ)) = t := Option.some.inj heq
      simp

theorem budgetSearch_scenario :
    budgetSearch scenarioSize 50 14 (220, 80) = some [(176, 70), (140, 60), (112, 50)] := by
  have c220 : ((scenarioSize (220, 80) : ℕ) : ℚ) / 1000000 > 50 := by
    norm_num [scenarioSize]
  have c176 : ((scenarioSize (176, 70) : ℕ) : ℚ) / 1000000 > 50 := by
    norm_num [scenarioSize]
  have c140 : ((scenarioSize (140, 60) : ℕ) : ℚ) / 1000000 > 50 := by
    norm_num [scenarioSize]
  have c112 : ¬ ((scenarioSize (112, 50) : ℕ) : ℚ) / 1000000 > 50 := by
    norm_num [scenarioSize]
  have L1 : budgetSearch scenarioSize 50 11 (112, 50) = some [] := by
    rw [show (11 : ℕ) = 10 + 1 from rfl, budgetSearch, if_neg c112]
  have L2 : budgetSearch scenarioSize 50 12 (140, 60) = some [(112, 50)] := by
    rw [show (12 : ℕ) = 11 + 1 from rfl, budgetSearch, if_pos c140,
      show budgetStep (140, 60) = (112, 50) from by decide,
      if_neg (by decide : ¬ ((112, 50) : ℕ × ℕ) = (140, 60)), L1]
    rfl
  have L3 : budgetSearch scenarioSize 50 13 (176, 70) = some [(140, 60), (112, 50)] := by
    rw [show (13 : ℕ) = 12 + 1 from rfl, budgetSearch, if_pos c176,
      show budgetStep (176, 70) = (140, 60) from by decide,
      if_neg (by decide : ¬ ((140, 60) : ℕ × ℕ) = (176, 70)), L2]
    rfl
  rw [show (14 : ℕ) = 13 + 1 from rfl, budgetSearch, if_pos c220,
    show budgetStep (220, 80) = (176, 70) from by decide,
    if_neg (by decide : ¬ ((176, 70) : ℕ × ℕ) = (220, 80)), L3]
  rfl

/-- C3: across every budget-search run from a base at or above the floors, the
(dpi, quality) pairs passed to successive Export Engine invocations are
non-increasing in both components (quality is never raised after an
overshoot); in the spec's scenario (target 50 MB, base (220, 80), three
degrade steps needed to reach the target) the Export Engine is invoked exactly
4 times: the base plus the retries (176, 70), (140, 60), (112, 50). -/
theorem budget_search_monotone :
    (∀ (size : ℕ × ℕ → ℕ) (targetMb : ℚ) (fuel : ℕ) (p : ℕ × ℕ) (t : List (ℕ × ℕ)),
      10 ≤ p.1 → 30 ≤ p.2 → budgetSearch size targetMb fuel p = some t →
      List.Chain' (fun a b : ℕ × ℕ => b.1 ≤ a.1 ∧ b.2 ≤ a.2) (p :: t)) ∧
    budgetSearch scenarioSize 50 14 (220, 80) = some [(176, 70), (140, 60), (112, 50)] ∧
    ((220, 80) :: [(176, 70), (140, 60), (112, 50)] : List (ℕ × ℕ)).length = 4 :=
  ⟨fun size targetMb fuel p t h1 h2 heq =>
    budgetSearch_chain size targetMb fuel p t h1 h2 heq,
    budgetSearch_scenario, rfl⟩

/-- C3 witness: the scenario run's call sequence is monotonically
non-increasing in both components. -/
theorem budget_search_monotone_witness :
    List.Chain' (fun a b : ℕ × ℕ => b.1 ≤ a.1 ∧ b.2 ≤ a.2)
      ((220, 80) :: [(176, 70), (140, 60), (112, 50)]) :=
  budget_search_monotone.1 scenarioSize 50 14 (220, 80) [(176, 70), (140, 60), (112, 50)]
    (by norm_num) (by norm_num) budget_search_monotone.2.1

end PDFSplit
